import Mathlib

/-!
# Branch cataloguing pass and instruction-count instrumentation

A shallow embedding of `src/BranchPass/BranchPass.cpp` (the LLVM function pass
that catalogues conditional branches and traces indirect calls) and of
`src/branch/br_main.c` (the Valgrind tool that inserts a counting probe after
every instruction marker), followed by the properties proved about them.

Conventions of the embedding

* A C++ `int` is an `Int` kept in the 32-bit two's-complement range by
  `toInt32`; an `unsigned` is a `Nat` reduced modulo `2 ^ 32`; the `ULong`
  counter is a `Nat` reduced modulo `2 ^ 64`.
* A pointer is the address it holds (`Ptr`); a nullable pointer is an `Option`.
* The diagnostic stream `errs()` is the list of the texts written to it, in
  order; its content is the concatenation of that list, and its lines are
  the `streamLines` of that content.
* The file `branch_data.csv` is a `FileSys`: its content when it exists, and
  how the path answers to a status query and to opening for append.
* A call that can end by an exception says so in its result.
-/

namespace BranchPass

/-! ## The parts of LLVM IR the pass reads -/

/-- Address of an IR object; two pointers denote the same object iff equal. -/
abbrev Ptr := Nat

/-- Conversion to a C++ `int`: reduction to the 32-bit two's-complement range. -/
def toInt32 (z : Int) : Int := (z + 2 ^ 31) % 2 ^ 32 - 2 ^ 31

/-- A debug location (`DILocation`); only its line is read by the pass. -/
structure DILocation where
  line : Nat
deriving DecidableEq

/-- The accessor `DebugLoc::getLine()`, of type `unsigned`. -/
def DILocation.getLine (d : DILocation) : Nat := d.line % 2 ^ 32

/-- What kind of value a call's called operand is. -/
inductive ValueKind where
  | function
  | constant
  | inlineAsm
  | other
deriving DecidableEq

/-- An IR value, as far as the pass looks at it. -/
structure Value where
  addr : Ptr
  kind : ValueKind
deriving DecidableEq

/-- Reference to a basic block (a `BasicBlock *`). -/
abbrev BlockRef := Nat

/-- Operands of a `BranchInst`: one successor when unconditional, a
condition and two successors when conditional. -/
inductive BranchTargets where
  | uncond (dest : BlockRef)
  | cond (condition : Ptr) (ifTrue ifFalse : BlockRef)
deriving DecidableEq

/-- A branch instruction `BranchInst`. -/
structure BranchInst where
  addr : Ptr
  debugLoc : Option DILocation
  targets : BranchTargets
deriving DecidableEq

/-- A call instruction `CallInst`; the called operand is a nullable pointer. -/
structure CallInst where
  addr : Ptr
  debugLoc : Option DILocation
  calledOperand : Option Value
deriving DecidableEq

/-- An instruction: a branch, a call, or any other kind. -/
inductive Instruction where
  | br (b : BranchInst)
  | call (c : CallInst)
  | other (addr : Ptr) (debugLoc : Option DILocation)
deriving DecidableEq

/-- Address of an instruction. -/
def Instruction.addr : Instruction → Ptr
  | .br b => b.addr
  | .call c => c.addr
  | .other a _ => a

/-- The accessor `Instruction::getDebugLoc()`. -/
def Instruction.getDebugLoc : Instruction → Option DILocation
  | .br b => b.debugLoc
  | .call c => c.debugLoc
  | .other _ d => d

/-- A basic block: its instruction list. -/
structure BasicBlock where
  insts : List Instruction

/-- The memory in which basic blocks live: what a `BasicBlock *` points to. -/
abbrev Heap := BlockRef → BasicBlock

/-- Debug metadata of a function (`DISubprogram`). -/
structure DISubprogram where
  directory : String
  filename : String
deriving DecidableEq

/-- A function: its optional subprogram metadata and its blocks in order. -/
structure Function where
  subprogram : Option DISubprogram
  blocks : List BlockRef

/-- The range `instructions(func)`: every instruction, block after block. -/
def instructions (heap : Heap) (func : Function) : List Instruction :=
  func.blocks.flatMap (fun r => (heap r).insts)

/-- The query `BranchInst::isConditional()`. -/
def BranchInst.isConditional (b : BranchInst) : Bool :=
  match b.targets with
  | .uncond _ => false
  | .cond _ _ _ => true

/-- The query `BranchInst::getNumSuccessors()`. -/
def BranchInst.getNumSuccessors (b : BranchInst) : Nat :=
  match b.targets with
  | .uncond _ => 1
  | .cond _ _ _ => 2

/-- The first successor, `getSuccessor(0)`: the target taken when the
condition holds, or the only target of an unconditional branch. -/
def BranchInst.getSuccessor0 (b : BranchInst) : BlockRef :=
  match b.targets with
  | .uncond d => d
  | .cond _ t _ => t

/-- The query `CallBase::isIndirectCall()`: the called operand is neither a
function, nor another constant, nor inline assembly. LLVM inspects the operand
through the pointer, so the query yields `true` only for an operand that is
present. -/
def CallInst.isIndirectCall (c : CallInst) : Bool :=
  match c.calledOperand with
  | none => false
  | some v =>
    match v.kind with
    | .function => false
    | .constant => false
    | .inlineAsm => false
    | .other => true

/-! ## Text written by the stream operators -/

/-- Text of an `int` under the stream operator: decimal, `-` for negatives. -/
def intText : Int → String
  | Int.ofNat m => Nat.repr m
  | Int.negSucc m => "-" ++ Nat.repr (m + 1)

/-- Text of a pointer under the operator of `raw_ostream`: `0x` and
lower-case hexadecimal digits. -/
def ptrText (p : Ptr) : String := "0x" ++ String.mk (Nat.toDigits 16 p)

/-! ## The class BranchLogger -/

/-- One element of `branchDataList`: file path, id, source line,
destination line. -/
abbrev BranchData := String × Int × Int × Int

/-- Lookup in the map (`find`), the map being an association list. -/
def mapFind : List (Ptr × Int) → Ptr → Option Int
  | [], _ => none
  | (k, v) :: rest, p => if k = p then some v else mapFind rest p

/-- Assignment through the subscript operator: add the key or overwrite. -/
def mapSet : List (Ptr × Int) → Ptr → Int → List (Ptr × Int)
  | [], p, v => [(p, v)]
  | (k, w) :: rest, p, v => if k = p then (k, v) :: rest else (k, w) :: mapSet rest p v

/-- Reading through the subscript operator: an absent key is first added
with the value `0`. -/
def mapIndex (m : List (Ptr × Int)) (p : Ptr) : Int × List (Ptr × Int) :=
  match mapFind m p with
  | some v => (v, m)
  | none => (0, mapSet m p 0)

/-- Fields of a `BranchLogger`. -/
structure BranchLogger where
  branchMap : List (Ptr × Int)
  branchDataList : List BranchData
  branchID : Int
deriving DecidableEq

/-- The constructor: empty containers, `branchID` one. -/
def BranchLogger.new : BranchLogger := ⟨[], [], 1⟩

/-- Method `isConditionalBranch`. -/
def isConditionalBranch (b : BranchInst) : Bool := b.isConditional

/-- Method `getBranchID`: a branch not yet in the map receives the current
`branchID`, which is then incremented; the mapped value is returned. -/
def getBranchID (lg : BranchLogger) (b : BranchInst) : Int × BranchLogger :=
  let lg1 : BranchLogger :=
    if mapFind lg.branchMap b.addr = none then
      { lg with branchMap := mapSet lg.branchMap b.addr lg.branchID,
                branchID := toInt32 (lg.branchID + 1) }
    else lg
  let r := mapIndex lg1.branchMap b.addr
  (r.1, { lg1 with branchMap := r.2 })

/-- Method `getSourceLine`. Both arms of the conditional expression have type
`unsigned` (the `-1` is converted), and the result is converted to `int`. -/
def getSourceLine (b : BranchInst) : Int :=
  toInt32 (match b.debugLoc with
    | some d => (d.getLine : Int)
    | none => ((2 ^ 32 - 1 : Nat) : Int))

/-- Method `getDestinationLine`. -/
def getDestinationLine (heap : Heap) (b : BranchInst) : Int :=
  if b.getNumSuccessors > 0 then
    match (heap b.getSuccessor0).insts with
    | [] => -1
    | firstInst :: _ =>
      match firstInst.getDebugLoc with
      | some d => toInt32 (d.getLine : Int)
      | none => -1
  else -1

/-- Method `isIndirectCall`. -/
def isIndirectCall (c : CallInst) : Bool := c.isIndirectCall

/-- Method `addBranchToList`. -/
def addBranchToList (lg : BranchLogger) (filePath : String) (id srcLine destLine : Int) :
    BranchLogger :=
  { lg with branchDataList := lg.branchDataList ++ [(filePath, id, srcLine, destLine)] }

/-- The line `displayBranchData` writes. -/
def branchText (filePath : String) (id srcLine destLine : Int) : String :=
  "br_" ++ intText id ++ ": " ++ filePath ++ ", " ++ intText srcLine ++ ", " ++
    intText destLine ++ "\n"

/-- Method `displayBranchData`. -/
def displayBranchData (errs : List String) (filePath : String) (id srcLine destLine : Int) :
    List String :=
  errs ++ [branchText filePath id srcLine destLine]

/-- Method `logBranch`. -/
def logBranch (heap : Heap) (lg : BranchLogger) (errs : List String) (b : BranchInst)
    (filePath : String) : BranchLogger × List String :=
  if isConditionalBranch b then
    let r := getBranchID lg b
    let srcLine := getSourceLine b
    let destLine := getDestinationLine heap b
    (addBranchToList r.2 filePath r.1 srcLine destLine,
      displayBranchData errs filePath r.1 srcLine destLine)
  else (lg, errs)

/-- The line `logFunctionPointer` writes for a target. -/
def indirectText (target : Value) : String :=
  "*IndirectFuncPtr_" ++ ptrText target.addr ++ "\n"

/-- Method `logFunctionPointer`. -/
def logFunctionPointer (lg : BranchLogger) (errs : List String) (c : CallInst) :
    BranchLogger × List String :=
  if isIndirectCall c then
    match c.calledOperand with
    | some targetFunction => (lg, errs ++ [indirectText targetFunction])
    | none => (lg, errs)
  else (lg, errs)

/-! ## The log file -/

/-- How the path `branch_data.csv` answers: its status can be read and it opens
for append (`openable`); its status can be read but it does not open for
append (`unopenable`); or its status cannot be read, for a reason other than
the file not being there, and then it does not open either (`statFails`). -/
inductive Access where
  | openable
  | unopenable
  | statFails
deriving DecidableEq

/-- State of `branch_data.csv`: its content if it exists, and how the path
answers. -/
structure FileSys where
  csv : Option String
  access : Access
deriving DecidableEq

/-- Whether opening the file for append succeeds. -/
def FileSys.canOpen (fs : FileSys) : Bool := decide (fs.access = .openable)

/-- The throwing overload of `std::filesystem::exists`: `none` stands for the
exception `filesystem_error`, thrown when the status cannot be read. -/
def filesystemExists (fs : FileSys) : Option Bool :=
  match fs.access with
  | .statFails => none
  | .openable => some fs.csv.isSome
  | .unopenable => some fs.csv.isSome

/-- What a flush leaves behind: the file state, the diagnostic stream, and
whether control left by an exception instead of a return. -/
structure Flush where
  fs : FileSys
  errs : List String
  thrown : Bool
deriving DecidableEq

/-- An output file stream: whether it is open, and the text put so far. -/
structure OfStream where
  isOpen : Bool
  written : String
deriving DecidableEq

/-- Opening in append mode. -/
def OfStream.openAppend (fs : FileSys) : OfStream := ⟨fs.canOpen, ""⟩

/-- The stream operator: a stream that failed to open ignores the text. -/
def OfStream.put (s : OfStream) (t : String) : OfStream :=
  if s.isOpen then { s with written := s.written ++ t } else s

/-- Closing: an open stream leaves the file existing, its former content
followed by the text put; a stream that failed to open changes nothing. -/
def OfStream.close (s : OfStream) (fs : FileSys) : FileSys :=
  if s.isOpen then { fs with csv := some (fs.csv.getD "" ++ s.written) } else fs

/-- The header line of the log. -/
def csvHeader : String := "file_path,branch_id,source_line,destination_line\n"

/-- The line written for one element of `branchDataList`. -/
def csvLine (d : BranchData) : String :=
  d.1 ++ "," ++ intText d.2.1 ++ "," ++ intText d.2.2.1 ++ "," ++ intText d.2.2.2 ++ "\n"

/-- The final diagnostic of `writeCsvFile`. -/
def csvWrittenText : String := "CSV data has been written to branch_data.csv\n"

/-- Method `writeCsvFile`; it returns nothing, its effects are the new file
state and the diagnostic stream. An exception of the existence check is not
caught: it leaves the method before the stream is opened. -/
def writeCsvFile (lg : BranchLogger) (fs : FileSys) (errs : List String) : Flush :=
  match filesystemExists fs with
  | none => ⟨fs, errs, true⟩
  | some fileExists =>
    let outputFile := OfStream.openAppend fs
    let outputFile := if !fileExists then outputFile.put csvHeader else outputFile
    let outputFile := lg.branchDataList.foldl (fun o d => o.put (csvLine d)) outputFile
    ⟨outputFile.close fs, errs ++ [csvWrittenText], false⟩

/-- The destructor of `BranchLogger`. It catches nothing either; a destructor
does not let an exception through, so `thrown` here means that the process
ended at this point. -/
def BranchLogger.destroy (lg : BranchLogger) (fs : FileSys) (errs : List String) : Flush :=
  writeCsvFile lg fs errs

/-! ## The class FunctionAnalyzer and the pass -/

/-- Method `getSourceFilePath`. -/
def getSourceFilePath (func : Function) : String :=
  match func.subprogram with
  | some subProg => subProg.directory ++ "/" ++ subProg.filename
  | none => ""

/-- Method `analyzeInstruction`. -/
def analyzeInstruction (heap : Heap) (st : BranchLogger × List String) (inst : Instruction)
    (filePath : String) : BranchLogger × List String :=
  match inst with
  | .br branchInst => logBranch heap st.1 st.2 branchInst filePath
  | .call callInst => logFunctionPointer st.1 st.2 callInst
  | .other _ _ => st

/-- Method `analyze`. -/
def analyze (heap : Heap) (st : BranchLogger × List String) (func : Function) :
    BranchLogger × List String :=
  let filePath := getSourceFilePath func
  (instructions heap func).foldl (fun s inst => analyzeInstruction heap s inst filePath) st

/-- The pass entry `BranchAnalysisPass::run`: a fresh logger, the traversal,
and the destruction of the logger when the scope ends. -/
def run (heap : Heap) (func : Function) (fs : FileSys) (errs : List String) : Flush :=
  let st := analyze heap (BranchLogger.new, errs) func
  st.1.destroy fs st.2

/-! ## Notions used in the statements about the pass -/

/-- The ids that `getBranchID` returns for a sequence of branches handed to
one logger, in order, and the logger afterwards. -/
def getBranchIDs : BranchLogger → List BranchInst → List Int × BranchLogger
  | lg, [] => ([], lg)
  | lg, b :: rest =>
    let r := getBranchID lg b
    let q := getBranchIDs r.2 rest
    (r.1 :: q.1, q.2)

/-- Addresses in order of first appearance, after those already seen. -/
def firstSeen : List Ptr → List Ptr → List Ptr
  | seen, [] => seen
  | seen, p :: rest =>
    if p ∈ seen then firstSeen seen rest else firstSeen (seen ++ [p]) rest

/-- The logger has registered exactly the addresses `seen`, in this order,
under the ids `1, 2, ...`, and `branchID` is the next id. -/
def Registered (lg : BranchLogger) (seen : List Ptr) : Prop :=
  lg.branchID = (seen.length : Int) + 1 ∧
  ∀ p, mapFind lg.branchMap p =
    if p ∈ seen then some ((seen.indexOf p : Int) + 1) else none

/-- The conditional branch an instruction is, if it is one. -/
def condBranch? (inst : Instruction) : Option BranchInst :=
  match inst with
  | .br b => if b.isConditional then some b else none
  | .call _ => none
  | .other _ _ => none

/-- The conditional branches of a function, in instruction order. -/
def condBranches (heap : Heap) (func : Function) : List BranchInst :=
  (instructions heap func).filterMap condBranch?

/-- A line of the diagnostic stream starts with `br_`. -/
def isBranchLine (s : String) : Bool := "br_".data.isPrefixOf s.data

/-- The lines of a character sequence: the pieces between newlines, a last
piece without newline included. -/
def splitLines : List Char → List (List Char)
  | [] => []
  | c :: cs =>
    if c = '\n' then [] :: splitLines cs
    else
      match splitLines cs with
      | [] => [[c]]
      | l :: ls => (c :: l) :: ls

/-- The lines of a text, without their newlines. -/
def streamLines (text : String) : List String := (splitLines text.data).map String.mk

/-- The line of the diagnostic stream for a record, without its newline. -/
def branchLine (filePath : String) (id srcLine destLine : Int) : String :=
  "br_" ++ intText id ++ ": " ++ filePath ++ ", " ++ intText srcLine ++ ", " ++
    intText destLine

/-- The line of the diagnostic stream for an indirect call, without its
newline. -/
def indirectLine (target : Value) : String := "*IndirectFuncPtr_" ++ ptrText target.addr

/-- The line of the log for a record, without its newline. -/
def dataLine (d : BranchData) : String :=
  d.1 ++ "," ++ intText d.2.1 ++ "," ++ intText d.2.2.1 ++ "," ++ intText d.2.2.2

/-- The records of a list of branches numbered from `k` on. -/
def recordsFrom (heap : Heap) (filePath : String) (k : Nat) (bs : List BranchInst) :
    List BranchData :=
  (bs.enumFrom k).map (fun kb =>
    (filePath, (kb.1 : Int), getSourceLine kb.2, getDestinationLine heap kb.2))

/-- Number of comma-separated fields of a line. -/
def fieldCount (line : String) : Nat := line.data.count ',' + 1

/-- Number of lines of a text: the number of its newline characters. -/
def lineCount (text : String) : Nat := text.data.count '\n'

/-! ## Sample inputs of the pass -/

/-- A heap for `sampleFunc`: block 0 holds an indirect call, a direct call and
a conditional branch at line 10; block 1 starts at line 12 and ends in an
unconditional branch; block 2 holds a conditional branch without debug
location whose first successor, block 3, is empty. -/
def sampleHeap : Heap := fun r =>
  if r = 0 then
    ⟨[.other 5 none, .call ⟨6, none, some ⟨77, .other⟩⟩, .call ⟨16, none, some ⟨78, .function⟩⟩,
      .br ⟨7, some ⟨10⟩, .cond 3 1 2⟩]⟩
  else if r = 1 then ⟨[.other 100 (some ⟨12⟩), .br ⟨8, none, .uncond 2⟩]⟩
  else if r = 2 then ⟨[.br ⟨9, none, .cond 4 3 1⟩]⟩
  else ⟨[]⟩

/-- A function over `sampleHeap`, from the file `/path/f.c`. -/
def sampleFunc : Function := ⟨some ⟨"/path", "f.c"⟩, [0, 1, 2]⟩

/-- A function over `sampleHeap` with the single conditional branch of block 0. -/
def oneIfFunc : Function := ⟨some ⟨"/path", "f.c"⟩, [0, 1]⟩

/-- A function whose file name holds a newline, with one conditional branch. -/
def newlineFunc : Function := ⟨some ⟨"/tmp", "a\nb.c"⟩, [0]⟩

/-- A function whose directory holds a comma, with one conditional branch. -/
def commaFunc : Function := ⟨some ⟨"/tmp/a,b", "f.c"⟩, [0]⟩

/-- A function whose file name holds a newline followed by `br_`, with one
conditional branch. -/
def brNameFunc : Function := ⟨some ⟨"/tmp", "a\nbr_7: x.c"⟩, [0]⟩

/-- A logger holding one record. -/
def sampleLogger : BranchLogger := ⟨[(7, 1)], [("/path/f.c", 1, 10, 12)], 2⟩

end BranchPass

namespace BrMain

/-! ## The parts of VEX IR the tool reads and builds -/

/-- Tags of an `IRStmt`. -/
inductive IRStmtTag where
  | Ist_NoOp
  | Ist_IMark
  | Ist_AbiHint
  | Ist_Put
  | Ist_PutI
  | Ist_WrTmp
  | Ist_Store
  | Ist_LoadG
  | Ist_StoreG
  | Ist_CAS
  | Ist_LLSC
  | Ist_Dirty
  | Ist_MBE
  | Ist_Exit
deriving DecidableEq

/-- Entry address of a helper: that of `inc_instruction_count`, which is
static to the tool, or any other address. -/
inductive FnEntry where
  | inc_instruction_count
  | other (a : Nat)
deriving DecidableEq

/-- A callee `IRCallee`: register-parameter count, name, entry address. -/
structure IRCallee where
  regparms : Nat
  name : String
  addr : FnEntry
deriving DecidableEq

/-- A dirty call `IRDirty`: callee and argument vector; the guard built by
`unsafeIRDirty_0_N` is the constant true. -/
structure IRDirty where
  cee : IRCallee
  args : List Nat
deriving DecidableEq

/-- A statement `IRStmt`: its tag, the dirty-call details when the tag is
`Ist_Dirty`, and the rest of its contents. -/
structure IRStmt where
  tag : IRStmtTag
  details : Option IRDirty
  payload : Nat
deriving DecidableEq

/-- A superblock `IRSB`. The list `stmts` holds the slots `0 .. stmts_used-1`
of the statement array, each a nullable pointer. -/
structure IRSB where
  tyenv : List Nat
  stmts : List (Option IRStmt)
  next : Nat
  jumpkind : Nat
  offsIP : Nat
deriving DecidableEq

/-- Field `stmts_used`. -/
def IRSB.stmts_used (bb : IRSB) : Nat := bb.stmts.length

/-- Library function `deepCopyIRSBExceptStmts`. -/
def deepCopyIRSBExceptStmts (bb : IRSB) : IRSB := { bb with stmts := [] }

/-- Library function `addStmtToIRSB`: the statement goes into the next slot. -/
def addStmtToIRSB (bb : IRSB) (st : IRStmt) : IRSB := { bb with stmts := bb.stmts ++ [some st] }

/-- Library function `mkIRExprVec_0`. -/
def mkIRExprVec_0 : List Nat := []

/-- Library function `unsafeIRDirty_0_N`. -/
def unsafeIRDirty_0_N (regparms : Nat) (name : String) (addr : FnEntry) (args : List Nat) :
    IRDirty :=
  ⟨⟨regparms, name, addr⟩, args⟩

/-- Library function `IRStmt_Dirty`. -/
def IRStmt_Dirty (d : IRDirty) : IRStmt := ⟨.Ist_Dirty, some d, 0⟩

/-! ## The tool -/

/-- The probe `inc_instruction_count`, on the 64-bit counter
`total_instructions`. -/
def inc_instruction_count (total_instructions : Nat) : Nat :=
  (total_instructions + 1) % 2 ^ 64

/-- Initial value of `total_instructions`. -/
def total_instructions_init : Nat := 0

/-- The statement inserted after an instruction marker. -/
def probeStmt : IRStmt :=
  IRStmt_Dirty (unsafeIRDirty_0_N 0 "inc_instruction_count" .inc_instruction_count
    mkIRExprVec_0)

/-- Body of the loop of `br_instrument` for one slot. -/
def instrumentSlot (outputBlock : IRSB) (slot : Option IRStmt) : IRSB :=
  match slot with
  | none => outputBlock
  | some currentStmt =>
    let outputBlock := addStmtToIRSB outputBlock currentStmt
    if currentStmt.tag = .Ist_IMark then addStmtToIRSB outputBlock probeStmt
    else outputBlock

/-- The function `br_instrument`; its other arguments are not used. -/
def br_instrument (inputBlock : IRSB) : IRSB :=
  inputBlock.stmts.foldl instrumentSlot (deepCopyIRSBExceptStmts inputBlock)

/-- The message of `br_fini`. -/
def br_fini (total_instructions : Nat) (_exitcode : Int) : String :=
  "Total number of executed instructions: " ++ Nat.repr total_instructions ++ "\n"

/-! ## Running an instrumented block -/

/-- Modelled from the spec: the effect on the counter of running one
statement. The host that runs translated blocks is not part of the
repository; a dirty call to `inc_instruction_count` runs the probe once, and
no other statement touches the counter. -/
def execStmt (total : Nat) (st : IRStmt) : Nat :=
  match st.details with
  | some d =>
    if st.tag = .Ist_Dirty ∧ d.cee.addr = .inc_instruction_count
    then inc_instruction_count total else total
  | none => total

/-- Modelled from the spec: running a block is running its statements in
order. -/
def execBlock (total : Nat) (bb : IRSB) : Nat :=
  bb.stmts.foldl (fun t slot => match slot with
    | some st => execStmt t st
    | none => t) total

/-- Modelled from the spec: running a block a number of times. -/
def execTimes (bb : IRSB) : Nat → Nat → Nat
  | 0, total => total
  | r + 1, total => execTimes bb r (execBlock total bb)

/-- Modelled from the spec: a run of the guest program, given as the
translated blocks in the order they run, each with the number of times it
runs; every block is instrumented before it runs. -/
def execRun (total : Nat) (blocks : List (IRSB × Nat)) : Nat :=
  blocks.foldl (fun t br => execTimes (br_instrument br.1) br.2 t) total

/-! ## Notions used in the statements about the tool -/

/-- Number of statements of a block tagged `Ist_IMark`. -/
def countIMark (bb : IRSB) : Nat :=
  (bb.stmts.filter (fun slot => match slot with
    | some st => decide (st.tag = .Ist_IMark)
    | none => false)).length

/-- A statement is a dirty call to `inc_instruction_count`. -/
def callsProbe (st : IRStmt) : Bool :=
  match st.details with
  | some d => decide (st.tag = .Ist_Dirty ∧ d.cee.addr = .inc_instruction_count)
  | none => false

/-- The statements held by a list of slots, null slots left out. -/
def heldStmts (slots : List (Option IRStmt)) : List IRStmt := slots.filterMap id

/-- What `br_instrument` emits for one statement. -/
def emitted (st : IRStmt) : List (Option IRStmt) :=
  if st.tag = .Ist_IMark then [some st, some probeStmt] else [some st]

/-- Number of instruction markers among statements. -/
def countMarks (l : List IRStmt) : Nat :=
  (l.filter (fun st => decide (st.tag = .Ist_IMark))).length

/-- No statement of the block is a dirty call to `inc_instruction_count`. -/
def probeFree (bb : IRSB) : Prop := ∀ st ∈ heldStmts bb.stmts, callsProbe st = false

/-- The sum over a run of (executions × markers of the block). -/
def expectedCount (blocks : List (IRSB × Nat)) : Nat :=
  (blocks.map (fun br => br.2 * countIMark br.1)).sum

/-! ## Sample inputs of the tool -/

/-- A block with two instruction markers, every slot holding a statement. -/
def markedBlock : IRSB :=
  ⟨[], [some ⟨.Ist_IMark, none, 4⟩, some ⟨.Ist_Put, none, 7⟩, some ⟨.Ist_IMark, none, 8⟩],
    0, 1, 0⟩

/-- A run: a block with two markers run three times, then a block with one
marker run twice. -/
def sampleRun : List (IRSB × Nat) :=
  [(markedBlock, 3),
   (⟨[], [some ⟨.Ist_IMark, none, 12⟩, none, some ⟨.Ist_Exit, none, 3⟩], 0, 1, 0⟩, 2)]

end BrMain

namespace BranchPass

/-! ## Properties of the branch cataloguing pass -/

theorem mapFind_mapSet (m : List (Ptr × Int)) (p q : Ptr) (v : Int) :
    mapFind (mapSet m p v) q = if p = q then some v else mapFind m q := by
  induction m with
  | nil => simp [mapSet, mapFind]
  | cons kv rest ih =>
    obtain ⟨k, w⟩ := kv
    by_cases hk : k = p
    · subst hk
      by_cases hq : k = q <;> simp [mapSet, mapFind, hq]
    · by_cases hq : k = q
      · subst hq
        have : ¬ p = k := fun h => hk h.symm
        simp [mapSet, mapFind, hk, this]
      · simp [mapSet, mapFind, hk, hq, ih]

theorem toInt32_of_range (z : Int) (h1 : -(2 ^ 31) ≤ z) (h2 : z < 2 ^ 31) : toInt32 z = z := by
  unfold toInt32
  have : (z + 2 ^ 31) % 2 ^ 32 = z + 2 ^ 31 := Int.emod_eq_of_lt (by omega) (by omega)
  omega

theorem registered_new : Registered BranchLogger.new [] := by
  constructor
  · rfl
  · intro p
    simp [BranchLogger.new, mapFind]

theorem getBranchID_seen (lg : BranchLogger) (seen : List Ptr) (b : BranchInst)
    (h : Registered lg seen) (hb : b.addr ∈ seen) :
    getBranchID lg b = ((seen.indexOf b.addr : Int) + 1, lg) := by
  have hf := h.2 b.addr
  simp only [hb, if_true] at hf
  simp [getBranchID, mapIndex, hf]

theorem getBranchID_fresh (lg : BranchLogger) (seen : List Ptr) (b : BranchInst)
    (h : Registered lg seen) (hb : b.addr ∉ seen) (hlen : seen.length + 2 < 2 ^ 31) :
    (getBranchID lg b).1 = (seen.length : Int) + 1 ∧
    Registered (getBranchID lg b).2 (seen ++ [b.addr]) ∧
    (getBranchID lg b).2.branchDataList = lg.branchDataList := by
  have hf := h.2 b.addr
  simp only [hb, if_false] at hf
  have hfind : mapFind (mapSet lg.branchMap b.addr lg.branchID) b.addr = some lg.branchID := by
    rw [mapFind_mapSet]; simp
  have hg : getBranchID lg b =
      (lg.branchID, { lg with branchMap := mapSet lg.branchMap b.addr lg.branchID,
                              branchID := toInt32 (lg.branchID + 1) }) := by
    simp [getBranchID, mapIndex, hf, hfind]
  rw [hg]
  refine ⟨h.1, ⟨?_, ?_⟩, rfl⟩
  · show toInt32 (lg.branchID + 1) = ((seen ++ [b.addr]).length : Int) + 1
    rw [h.1, toInt32_of_range _ (by omega) (by omega)]
    simp
  · intro p
    show mapFind (mapSet lg.branchMap b.addr lg.branchID) p = _
    rw [mapFind_mapSet, h.2 p]
    by_cases hp : b.addr = p
    · subst hp
      simp [List.indexOf_append_of_not_mem hb, h.1]
    · by_cases hps : p ∈ seen
      · simp [hp, hps, List.indexOf_append_of_mem hps]
      · have : ¬ p = b.addr := fun e => hp e.symm
        simp [hp, hps, this]

theorem firstSeen_extends (seen ps : List Ptr) : ∃ t, firstSeen seen ps = seen ++ t := by
  induction ps generalizing seen with
  | nil => exact ⟨[], by simp [firstSeen]⟩
  | cons p rest ih =>
    by_cases hp : p ∈ seen
    · simpa [firstSeen, hp] using ih seen
    · obtain ⟨t, ht⟩ := ih (seen ++ [p])
      exact ⟨p :: t, by simp [firstSeen, hp, ht]⟩

theorem mem_firstSeen (seen ps : List Ptr) (x : Ptr) :
    x ∈ firstSeen seen ps ↔ x ∈ seen ∨ x ∈ ps := by
  induction ps generalizing seen with
  | nil => simp [firstSeen]
  | cons p rest ih =>
    by_cases hp : p ∈ seen
    · simp only [firstSeen, hp, if_true, ih, List.mem_cons]
      constructor
      · rintro (h | h)
        · exact Or.inl h
        · exact Or.inr (Or.inr h)
      · rintro (h | h | h)
        · exact Or.inl h
        · exact Or.inl (h ▸ hp)
        · exact Or.inr h
    · simp only [firstSeen, hp, if_false, ih, List.mem_cons, List.mem_append,
        List.mem_singleton]
      tauto

theorem nodup_firstSeen (seen ps : List Ptr) (h : seen.Nodup) : (firstSeen seen ps).Nodup := by
  induction ps generalizing seen with
  | nil => simpa [firstSeen] using h
  | cons p rest ih =>
    by_cases hp : p ∈ seen
    · simpa [firstSeen, hp] using ih seen h
    · simp only [firstSeen, hp, if_false]
      apply ih
      rw [List.nodup_append]
      refine ⟨h, List.nodup_singleton p, ?_⟩
      intro a ha hb
      rw [List.mem_singleton] at hb
      exact hp (hb ▸ ha)

theorem firstSeen_append (seen l1 l2 : List Ptr) :
    firstSeen seen (l1 ++ l2) = firstSeen (firstSeen seen l1) l2 := by
  induction l1 generalizing seen with
  | nil => simp [firstSeen]
  | cons p rest ih =>
    by_cases hp : p ∈ seen
    · simp [firstSeen, hp, ih]
    · simp [firstSeen, hp, ih]

theorem length_firstSeen (ps : List Ptr) : (firstSeen [] ps).length = ps.toFinset.card := by
  rw [← List.toFinset_card_of_nodup (nodup_firstSeen [] ps List.nodup_nil)]
  congr 1
  ext x
  simp [mem_firstSeen]

theorem indexOf_firstSeen (seen ps : List Ptr) (p : Ptr) (hp : p ∈ seen) :
    (firstSeen seen ps).indexOf p = seen.indexOf p := by
  obtain ⟨t, ht⟩ := firstSeen_extends seen ps
  rw [ht, List.indexOf_append_of_mem hp]

theorem length_le_firstSeen (seen ps : List Ptr) : seen.length ≤ (firstSeen seen ps).length := by
  obtain ⟨t, ht⟩ := firstSeen_extends seen ps
  rw [ht, List.length_append]
  omega

theorem getBranchIDs_spec (bs : List BranchInst) (lg : BranchLogger) (seen : List Ptr)
    (h : Registered lg seen)
    (hlen : (firstSeen seen (bs.map BranchInst.addr)).length + 1 < 2 ^ 31) :
    (getBranchIDs lg bs).1 = bs.map (fun b =>
      (((firstSeen seen (bs.map BranchInst.addr)).indexOf b.addr : Nat) : Int) + 1) ∧
    Registered (getBranchIDs lg bs).2 (firstSeen seen (bs.map BranchInst.addr)) := by
  induction bs generalizing lg seen with
  | nil => exact ⟨rfl, h⟩
  | cons b rest ih =>
    by_cases hb : b.addr ∈ seen
    · have hfs : firstSeen seen ((b :: rest).map BranchInst.addr) =
          firstSeen seen (rest.map BranchInst.addr) := by simp [firstSeen, hb]
      rw [hfs] at hlen ⊢
      have hg := getBranchID_seen lg seen b h hb
      obtain ⟨ih1, ih2⟩ := ih lg seen h hlen
      simp only [getBranchIDs, hg, List.map_cons]
      exact ⟨by rw [ih1, indexOf_firstSeen _ _ _ hb], ih2⟩
    · have hfs : firstSeen seen ((b :: rest).map BranchInst.addr) =
          firstSeen (seen ++ [b.addr]) (rest.map BranchInst.addr) := by simp [firstSeen, hb]
      rw [hfs] at hlen ⊢
      have hle := length_le_firstSeen (seen ++ [b.addr]) (rest.map BranchInst.addr)
      rw [List.length_append, List.length_singleton] at hle
      obtain ⟨hg1, hg2, _⟩ := getBranchID_fresh lg seen b h hb (by omega)
      obtain ⟨ih1, ih2⟩ := ih _ _ hg2 hlen
      simp only [getBranchIDs, List.map_cons]
      refine ⟨?_, ih2⟩
      rw [ih1, hg1, indexOf_firstSeen _ _ _ (by simp : b.addr ∈ seen ++ [b.addr]),
        List.indexOf_append_of_not_mem hb]
      simp

theorem mem_zip_map (bs : List BranchInst) (f : BranchInst → Int) (b : BranchInst) (k : Int)
    (h : (b, k) ∈ List.zip bs (bs.map f)) : b ∈ bs ∧ k = f b := by
  induction bs with
  | nil => simp at h
  | cons c rest ih =>
    simp only [List.map_cons, List.zip_cons_cons, List.mem_cons, Prod.mk.injEq] at h
    rcases h with ⟨rfl, rfl⟩ | h
    · exact ⟨List.mem_cons_self _ _, rfl⟩
    · exact ⟨List.mem_cons_of_mem _ (ih h).1, (ih h).2⟩

/-- C1: id stability of `getBranchID`. For a sequence of branches handed to one
fresh logger, within the range of the `int` counter: as many ids are returned
as branches were handed over; two branches of the sequence receive the same id
iff they are the same instruction (the same address); the ids returned are
exactly `1, ..., n`, with `n` the number of distinct branches; and a branch
seen for the first time receives one more than the number of distinct
branches seen before it. -/
theorem getBranchID_id_stability (bs : List BranchInst)
    (hn : (bs.map BranchInst.addr).toFinset.card + 1 < 2 ^ 31) :
    (getBranchIDs BranchLogger.new bs).1.length = bs.length ∧
    (∀ b1 id1 b2 id2, (b1, id1) ∈ List.zip bs (getBranchIDs BranchLogger.new bs).1 →
      (b2, id2) ∈ List.zip bs (getBranchIDs BranchLogger.new bs).1 →
      (id1 = id2 ↔ b1.addr = b2.addr)) ∧
    (∀ k : Int, k ∈ (getBranchIDs BranchLogger.new bs).1 ↔
      1 ≤ k ∧ k ≤ ((bs.map BranchInst.addr).toFinset.card : Int)) ∧
    (∀ pre b post, bs = pre ++ b :: post → b.addr ∉ pre.map BranchInst.addr →
      (getBranchIDs BranchLogger.new bs).1[pre.length]? =
        some (((pre.map BranchInst.addr).toFinset.card : Int) + 1)) := by
  have hlen := length_firstSeen (bs.map BranchInst.addr)
  obtain ⟨hids, -⟩ := getBranchIDs_spec bs BranchLogger.new [] registered_new (by omega)
  have hnd := nodup_firstSeen [] (bs.map BranchInst.addr) List.nodup_nil
  have hmem : ∀ b ∈ bs, b.addr ∈ firstSeen [] (bs.map BranchInst.addr) := by
    intro b hb
    rw [mem_firstSeen]
    exact Or.inr (List.mem_map_of_mem _ hb)
  rw [hids]
  refine ⟨by simp, ?_, ?_, ?_⟩
  · intro b1 id1 b2 id2 h1 h2
    obtain ⟨m1, rfl⟩ := mem_zip_map bs _ b1 id1 h1
    obtain ⟨m2, rfl⟩ := mem_zip_map bs _ b2 id2 h2
    constructor
    · intro e
      have e2 : (firstSeen [] (bs.map BranchInst.addr)).indexOf b1.addr =
          (firstSeen [] (bs.map BranchInst.addr)).indexOf b2.addr := by omega
      exact (List.indexOf_inj (hmem b1 m1) (hmem b2 m2)).1 e2
    · intro e
      rw [e]
  · intro k
    rw [List.mem_map]
    constructor
    · rintro ⟨b, hb, rfl⟩
      have := List.indexOf_lt_length.2 (hmem b hb)
      omega
    · rintro ⟨h1, h2⟩
      have hk : (k - 1).toNat < (firstSeen [] (bs.map BranchInst.addr)).length := by omega
      have hp : (firstSeen [] (bs.map BranchInst.addr))[(k - 1).toNat] ∈
          bs.map BranchInst.addr := by
        have := List.getElem_mem hk
        rw [mem_firstSeen] at this
        simpa using this
      obtain ⟨b, hb, hbp⟩ := List.mem_map.1 hp
      refine ⟨b, hb, ?_⟩
      rw [hbp, List.indexOf_getElem hnd]
      omega
  · intro pre b post hbs hfresh
    subst hbs
    have hfs : firstSeen [] ((pre ++ b :: post).map BranchInst.addr) =
        firstSeen (firstSeen [] (pre.map BranchInst.addr) ++ [b.addr])
          (post.map BranchInst.addr) := by
      have hnot : b.addr ∉ firstSeen [] (pre.map BranchInst.addr) := by
        rw [mem_firstSeen]
        simpa using hfresh
      rw [List.map_append, firstSeen_append, List.map_cons]
      simp [firstSeen, hnot]
    have hnot : b.addr ∉ firstSeen [] (pre.map BranchInst.addr) := by
      rw [mem_firstSeen]
      simpa using hfresh
    rw [hfs, List.getElem?_map, List.getElem?_append_right (le_refl _)]
    simp only [Nat.sub_self, List.getElem?_cons_zero, Option.map_some']
    rw [indexOf_firstSeen _ _ _ (by simp), List.indexOf_append_of_not_mem hnot,
      length_firstSeen]
    simp

theorem getBranchID_id_stability_witness :
    (getBranchIDs BranchLogger.new
      [⟨40, none, .cond 0 1 2⟩, ⟨24, none, .cond 0 1 2⟩, ⟨40, none, .cond 0 1 2⟩]).1 =
        [1, 2, 1] ∧
    ∀ k : Int, k ∈ (getBranchIDs BranchLogger.new
      [⟨40, none, .cond 0 1 2⟩, ⟨24, none, .cond 0 1 2⟩, ⟨40, none, .cond 0 1 2⟩]).1 ↔
        1 ≤ k ∧ k ≤ 2 :=
  ⟨by decide,
   (getBranchID_id_stability
      [⟨40, none, .cond 0 1 2⟩, ⟨24, none, .cond 0 1 2⟩, ⟨40, none, .cond 0 1 2⟩]
      (by decide)).2.2.1⟩

theorem digitChar_ne : ∀ m, m < 10 → Nat.digitChar m ≠ ',' ∧ Nat.digitChar m ≠ '\n' := by
  decide

theorem toDigitsCore_chars (fuel n : Nat) (acc : List Char)
    (hacc : ∀ c ∈ acc, c ≠ ',' ∧ c ≠ '\n') :
    ∀ c ∈ Nat.toDigitsCore 10 fuel n acc, c ≠ ',' ∧ c ≠ '\n' := by
  induction fuel generalizing n acc with
  | zero => simpa [Nat.toDigitsCore] using hacc
  | succ f ih =>
    have hcons : ∀ c ∈ Nat.digitChar (n % 10) :: acc, c ≠ ',' ∧ c ≠ '\n' := by
      intro c hc
      rcases List.mem_cons.1 hc with rfl | hc
      · exact digitChar_ne _ (Nat.mod_lt _ (by norm_num))
      · exact hacc c hc
    unfold Nat.toDigitsCore
    by_cases h0 : n / 10 = 0
    · simpa [h0] using hcons
    · simp only [h0, if_false]
      exact ih _ _ hcons

theorem natRepr_chars (n : Nat) : ∀ c ∈ (Nat.repr n).data, c ≠ ',' ∧ c ≠ '\n' := by
  unfold Nat.repr Nat.toDigits
  exact toDigitsCore_chars _ _ _ (by simp)

theorem intText_chars (z : Int) : ∀ c ∈ (intText z).data, c ≠ ',' ∧ c ≠ '\n' := by
  cases z with
  | ofNat m => exact natRepr_chars m
  | negSucc m =>
    intro c hc
    simp only [intText, String.data_append, List.mem_append] at hc
    rcases hc with hc | hc
    · have : c = '-' := by simpa using hc
      subst this
      decide
    · exact natRepr_chars _ c hc

theorem count_intText_comma (z : Int) : (intText z).data.count ',' = 0 :=
  List.count_eq_zero.2 (fun h => (intText_chars z _ h).1 rfl)

theorem count_intText_newline (z : Int) : (intText z).data.count '\n' = 0 :=
  List.count_eq_zero.2 (fun h => (intText_chars z _ h).2 rfl)

theorem lineCount_csvLine (d : BranchData) :
    lineCount (csvLine d) = d.1.data.count '\n' + 1 := by
  simp [lineCount, csvLine, String.data_append, List.count_append, count_intText_newline]


theorem foldl_append_string (l : List String) (acc : String) :
    l.foldl (fun r s => r ++ s) acc = acc ++ l.foldl (fun r s => r ++ s) "" := by
  induction l generalizing acc with
  | nil => simp
  | cons a rest ih =>
    rw [List.foldl_cons, List.foldl_cons, ih (acc ++ a), ih ("" ++ a)]
    simp [String.append_assoc]

theorem join_cons (a : String) (l : List String) : String.join (a :: l) = a ++ String.join l := by
  unfold String.join
  rw [List.foldl_cons, foldl_append_string]
  simp


theorem hexChar_ne : ∀ m, m < 16 → Nat.digitChar m ≠ '\n' := by
  decide

theorem toDigitsCore_hex_chars (fuel n : Nat) (acc : List Char)
    (hacc : ∀ c ∈ acc, c ≠ '\n') :
    ∀ c ∈ Nat.toDigitsCore 16 fuel n acc, c ≠ '\n' := by
  induction fuel generalizing n acc with
  | zero => simpa [Nat.toDigitsCore] using hacc
  | succ f ih =>
    have hcons : ∀ c ∈ Nat.digitChar (n % 16) :: acc, c ≠ '\n' := by
      intro c hc
      rcases List.mem_cons.1 hc with rfl | hc
      · exact hexChar_ne _ (Nat.mod_lt _ (by norm_num))
      · exact hacc c hc
    unfold Nat.toDigitsCore
    by_cases h0 : n / 16 = 0
    · simpa [h0] using hcons
    · simp only [h0, if_false]
      exact ih _ _ hcons

theorem indirectLine_chars (v : Value) : '\n' ∉ (indirectLine v).data := by
  intro h
  simp only [indirectLine, ptrText, String.data_append, List.mem_append, or_assoc] at h
  rcases h with h | h | h
  · revert h
    decide
  · revert h
    decide
  · exact toDigitsCore_hex_chars _ _ _ (by simp) _ h rfl

theorem branchLine_chars (filePath : String) (id srcLine destLine : Int)
    (hp : '\n' ∉ filePath.data) : '\n' ∉ (branchLine filePath id srcLine destLine).data := by
  intro h
  simp only [branchLine, String.data_append, List.mem_append, or_assoc] at h
  rcases h with h | h | h | h | h | h | h | h
  · revert h; decide
  · exact (intText_chars _ _ h).2 rfl
  · revert h; decide
  · exact hp h
  · revert h; decide
  · exact (intText_chars _ _ h).2 rfl
  · revert h; decide
  · exact (intText_chars _ _ h).2 rfl

theorem dataLine_chars (d : BranchData) (hp : '\n' ∉ d.1.data) : '\n' ∉ (dataLine d).data := by
  intro h
  simp only [dataLine, String.data_append, List.mem_append, or_assoc] at h
  rcases h with h | h | h | h | h | h | h
  · exact hp h
  · revert h; decide
  · exact (intText_chars _ _ h).2 rfl
  · revert h; decide
  · exact (intText_chars _ _ h).2 rfl
  · revert h; decide
  · exact (intText_chars _ _ h).2 rfl

theorem branchText_eq (filePath : String) (id srcLine destLine : Int) :
    branchText filePath id srcLine destLine = branchLine filePath id srcLine destLine ++ "\n" :=
  rfl

theorem indirectText_eq (v : Value) : indirectText v = indirectLine v ++ "\n" := rfl

theorem csvLine_eq (d : BranchData) : csvLine d = dataLine d ++ "\n" := rfl

theorem splitLines_line (body rest : List Char) (h : '\n' ∉ body) :
    splitLines (body ++ '\n' :: rest) = body :: splitLines rest := by
  induction body with
  | nil => simp [splitLines]
  | cons c b ih =>
    have hc : c ≠ '\n' := fun e => h (e ▸ List.mem_cons_self _ _)
    have hb : '\n' ∉ b := fun m => h (List.mem_cons_of_mem _ m)
    simp [splitLines, hc, ih hb]

theorem splitLines_ne_nil (c : Char) (cs : List Char) : splitLines (c :: cs) ≠ [] := by
  unfold splitLines
  split_ifs
  · simp
  · split <;> simp

theorem splitLines_append (xs ys : List Char) :
    splitLines (xs ++ '\n' :: ys) = splitLines (xs ++ ['\n']) ++ splitLines ys := by
  induction xs with
  | nil => simp [splitLines]
  | cons c cs ih =>
    by_cases hc : c = '\n'
    · simp [splitLines, hc, ih]
    · have hne : splitLines (cs ++ ['\n']) ≠ [] := by
        cases cs with
        | nil => simp [splitLines]
        | cons d ds => exact splitLines_ne_nil d _
      obtain ⟨l, ls, hl⟩ := List.exists_cons_of_ne_nil hne
      simp [splitLines, hc, ih, hl]

theorem streamLines_append (a rest : String) :
    streamLines (a ++ "\n" ++ rest) = streamLines (a ++ "\n") ++ streamLines rest := by
  have h1 : (a ++ "\n" ++ rest).data = a.data ++ '\n' :: rest.data := by
    simp [String.data_append]
  have h2 : (a ++ "\n").data = a.data ++ ['\n'] := by
    simp [String.data_append]
  unfold streamLines
  rw [h1, h2, splitLines_append, List.map_append]

theorem streamLines_join_csvLine (l : List BranchData) :
    streamLines (String.join (l.map csvLine)) =
      l.flatMap (fun d => streamLines (csvLine d)) := by
  induction l with
  | nil => rfl
  | cons d rest ih =>
    rw [List.map_cons, join_cons, List.flatMap_cons, ← ih]
    exact streamLines_append (dataLine d) _

theorem streamLines_line (b rest : String) (h : '\n' ∉ b.data) :
    streamLines (b ++ "\n" ++ rest) = b :: streamLines rest := by
  have hd : (b ++ "\n" ++ rest).data = b.data ++ '\n' :: rest.data := by
    simp [String.data_append]
  simp only [streamLines, hd, splitLines_line _ _ h, List.map_cons]

theorem streamLines_join (bodies : List String) (h : ∀ b ∈ bodies, '\n' ∉ b.data) :
    streamLines (String.join (bodies.map (fun b => b ++ "\n"))) = bodies := by
  induction bodies with
  | nil => rfl
  | cons b rest ih =>
    rw [List.map_cons, join_cons, streamLines_line _ _ (h b (List.mem_cons_self _ _)),
      ih (fun c hc => h c (List.mem_cons_of_mem _ hc))]

theorem isBranchLine_branchLine (filePath : String) (id srcLine destLine : Int) :
    isBranchLine (branchLine filePath id srcLine destLine) = true := by
  simp [isBranchLine, branchLine, String.data_append, List.isPrefixOf]

theorem isBranchLine_indirectLine (v : Value) : isBranchLine (indirectLine v) = false := by
  simp [isBranchLine, indirectLine, String.data_append, List.isPrefixOf]

theorem registered_addBranchToList (lg : BranchLogger) (seen : List Ptr) (f : String)
    (a b c : Int) (h : Registered lg seen) : Registered (addBranchToList lg f a b c) seen := h

theorem analyze_fold (heap : Heap) (filePath : String) (insts : List Instruction)
    (lg : BranchLogger) (errs : List String) (seen : List Ptr) (h : Registered lg seen)
    (hfresh : ∀ b ∈ insts.filterMap condBranch?, b.addr ∉ seen)
    (hnd : ((insts.filterMap condBranch?).map BranchInst.addr).Nodup)
    (hlen : seen.length + (insts.filterMap condBranch?).length + 1 < 2 ^ 31) :
    (insts.foldl (fun s inst => analyzeInstruction heap s inst filePath)
        (lg, errs)).1.branchDataList =
      lg.branchDataList ++
        recordsFrom heap filePath (seen.length + 1) (insts.filterMap condBranch?) ∧
    (∃ bodies : List String, (insts.foldl (fun s inst => analyzeInstruction heap s inst filePath)
        (lg, errs)).2 = errs ++ bodies.map (fun b => b ++ "\n") ∧
      bodies.filter isBranchLine =
        (recordsFrom heap filePath (seen.length + 1) (insts.filterMap condBranch?)).map
          (fun d => branchLine d.1 d.2.1 d.2.2.1 d.2.2.2) ∧
      ('\n' ∉ filePath.data → ∀ b ∈ bodies, '\n' ∉ b.data)) := by
  induction insts generalizing lg errs seen with
  | nil => exact ⟨by simp [recordsFrom], [], by simp, by simp [recordsFrom], by simp⟩
  | cons inst rest ih =>
    rw [List.foldl_cons]
    cases inst with
    | other a d =>
      have hc : (Instruction.other a d :: rest).filterMap condBranch? =
          rest.filterMap condBranch? := by simp [condBranch?]
      rw [hc] at hfresh hnd hlen ⊢
      exact ih lg errs seen h hfresh hnd hlen
    | call c =>
      have hc : (Instruction.call c :: rest).filterMap condBranch? =
          rest.filterMap condBranch? := by simp [condBranch?]
      rw [hc] at hfresh hnd hlen ⊢
      by_cases hi : isIndirectCall c = true
      · cases ho : c.calledOperand with
        | none =>
          have : analyzeInstruction heap (lg, errs) (.call c) filePath = (lg, errs) := by
            simp [analyzeInstruction, logFunctionPointer, hi, ho]
          rw [this]
          exact ih lg errs seen h hfresh hnd hlen
        | some v =>
          have : analyzeInstruction heap (lg, errs) (.call c) filePath =
              (lg, errs ++ [indirectLine v ++ "\n"]) := by
            simp [analyzeInstruction, logFunctionPointer, hi, ho, indirectText_eq]
          rw [this]
          obtain ⟨ih1, bodies, ih2, ih3, ih4⟩ :=
            ih lg (errs ++ [indirectLine v ++ "\n"]) seen h hfresh hnd hlen
          refine ⟨ih1, indirectLine v :: bodies, ?_, ?_, ?_⟩
          · rw [ih2, List.append_assoc]; rfl
          · rw [List.filter_cons, isBranchLine_indirectLine]
            simpa using ih3
          · intro hp b hb
            rcases List.mem_cons.1 hb with rfl | hb
            · exact indirectLine_chars v
            · exact ih4 hp b hb
      · have : analyzeInstruction heap (lg, errs) (.call c) filePath = (lg, errs) := by
          simp [analyzeInstruction, logFunctionPointer, hi]
        rw [this]
        exact ih lg errs seen h hfresh hnd hlen
    | br b =>
      by_cases hcnd : b.isConditional = true
      · have hc : (Instruction.br b :: rest).filterMap condBranch? =
            b :: rest.filterMap condBranch? := by simp [condBranch?, hcnd]
        rw [hc] at hfresh hnd hlen ⊢
        have hb : b.addr ∉ seen := hfresh b (List.mem_cons_self _ _)
        rw [List.map_cons, List.nodup_cons] at hnd
        rw [List.length_cons] at hlen
        obtain ⟨hg1, hg2, hg3⟩ := getBranchID_fresh lg seen b h hb (by omega)
        have hstep : analyzeInstruction heap (lg, errs) (.br b) filePath =
            (addBranchToList (getBranchID lg b).2 filePath ((seen.length : Int) + 1)
                (getSourceLine b) (getDestinationLine heap b),
              errs ++ [branchLine filePath ((seen.length : Int) + 1) (getSourceLine b)
                (getDestinationLine heap b) ++ "\n"]) := by
          simp [analyzeInstruction, logBranch, isConditionalBranch, hcnd, hg1,
            displayBranchData, branchText_eq]
        rw [hstep]
        have hfresh2 : ∀ c ∈ rest.filterMap condBranch?, c.addr ∉ seen ++ [b.addr] := by
          intro c hcm hmem
          rw [List.mem_append, List.mem_singleton] at hmem
          rcases hmem with hmem | hmem
          · exact hfresh c (List.mem_cons_of_mem _ hcm) hmem
          · exact hnd.1 (hmem ▸ List.mem_map_of_mem _ hcm)
        obtain ⟨ih1, bodies, ih2, ih3, ih4⟩ := ih _ (errs ++ [branchLine filePath
            ((seen.length : Int) + 1) (getSourceLine b) (getDestinationLine heap b) ++ "\n"])
          (seen ++ [b.addr]) (registered_addBranchToList _ _ _ _ _ _ hg2) hfresh2 hnd.2
          (by rw [List.length_append, List.length_singleton]; omega)
        rw [List.length_append, List.length_singleton] at ih1 ih3
        refine ⟨?_, branchLine filePath ((seen.length : Int) + 1) (getSourceLine b)
            (getDestinationLine heap b) :: bodies, ?_, ?_, ?_⟩
        · rw [ih1]
          simp [addBranchToList, hg3, recordsFrom, List.enumFrom_cons]
        · rw [ih2, List.append_assoc]; rfl
        · rw [List.filter_cons, isBranchLine_branchLine, if_pos rfl, ih3]
          simp [recordsFrom, List.enumFrom_cons]
        · intro hp c hcm
          rcases List.mem_cons.1 hcm with rfl | hcm
          · exact branchLine_chars _ _ _ _ hp
          · exact ih4 hp c hcm
      · have hc : (Instruction.br b :: rest).filterMap condBranch? =
            rest.filterMap condBranch? := by simp [condBranch?, hcnd]
        rw [hc] at hfresh hnd hlen ⊢
        have : analyzeInstruction heap (lg, errs) (.br b) filePath = (lg, errs) := by
          simp [analyzeInstruction, logBranch, isConditionalBranch, hcnd]
        rw [this]
        exact ih lg errs seen h hfresh hnd hlen

theorem analyze_spec (heap : Heap) (func : Function) (errs : List String)
    (hnd : ((condBranches heap func).map BranchInst.addr).Nodup)
    (hlen : (condBranches heap func).length + 1 < 2 ^ 31) :
    (analyze heap (BranchLogger.new, errs) func).1.branchDataList =
      ((condBranches heap func).enumFrom 1).map (fun kb =>
        (getSourceFilePath func, (kb.1 : Int), getSourceLine kb.2,
          getDestinationLine heap kb.2)) ∧
    ∃ bodies : List String, (analyze heap (BranchLogger.new, errs) func).2 =
        errs ++ bodies.map (fun b => b ++ "\n") ∧
      bodies.filter isBranchLine =
        ((condBranches heap func).enumFrom 1).map (fun kb =>
          branchLine (getSourceFilePath func) (kb.1 : Int) (getSourceLine kb.2)
            (getDestinationLine heap kb.2)) ∧
      ('\n' ∉ (getSourceFilePath func).data →
        (streamLines (String.join (bodies.map (fun b => b ++ "\n")))).filter isBranchLine =
          ((condBranches heap func).enumFrom 1).map (fun kb =>
            branchLine (getSourceFilePath func) (kb.1 : Int) (getSourceLine kb.2)
              (getDestinationLine heap kb.2))) := by
  obtain ⟨h1, bodies, h2, h3, h4⟩ := analyze_fold heap (getSourceFilePath func)
    (instructions heap func) BranchLogger.new errs [] registered_new (by simp) hnd
    (by simpa [condBranches] using hlen)
  have h3' : bodies.filter isBranchLine =
      ((condBranches heap func).enumFrom 1).map (fun kb =>
        branchLine (getSourceFilePath func) (kb.1 : Int) (getSourceLine kb.2)
          (getDestinationLine heap kb.2)) := by
    rw [h3]
    simp [recordsFrom, condBranches]
  refine ⟨?_, bodies, h2, h3', ?_⟩
  · rw [analyze, h1]
    simp [BranchLogger.new, recordsFrom, condBranches]
  · intro hp
    rw [streamLines_join bodies (h4 hp), h3']

/-- C10 (as amended): the traversal result of `analyze` on a fresh logger. For
a function whose conditional branches are distinct instructions, fewer than
the range of `int`: the buffer `branchDataList` is the list of the conditional
branches in instruction order, the `k`-th (from 1) mapped to the record of the
file path, `k`, its source line and its destination line, nothing else
contributing a record. What is written to the diagnostic stream is a list of
texts, each ended by a newline; those starting `br_` are the `br_<k>: ...`
texts of the records, one each, in the same order; and when the file path
holds no newline, the lines of the stream that start `br_` are exactly these,
one for each record, in the same order. -/
theorem analyze_traversal (heap : Heap) (func : Function) (errs : List String)
    (hnd : ((condBranches heap func).map BranchInst.addr).Nodup)
    (hlen : (condBranches heap func).length + 1 < 2 ^ 31) :
    (analyze heap (BranchLogger.new, errs) func).1.branchDataList =
      ((condBranches heap func).enumFrom 1).map (fun kb =>
        (getSourceFilePath func, (kb.1 : Int), getSourceLine kb.2,
          getDestinationLine heap kb.2)) ∧
    ∃ bodies : List String, (analyze heap (BranchLogger.new, errs) func).2 =
        errs ++ bodies.map (fun b => b ++ "\n") ∧
      bodies.filter isBranchLine =
        ((condBranches heap func).enumFrom 1).map (fun kb =>
          branchLine (getSourceFilePath func) (kb.1 : Int) (getSourceLine kb.2)
            (getDestinationLine heap kb.2)) ∧
      ('\n' ∉ (getSourceFilePath func).data →
        (streamLines (String.join (bodies.map (fun b => b ++ "\n")))).filter isBranchLine =
          ((condBranches heap func).enumFrom 1).map (fun kb =>
            branchLine (getSourceFilePath func) (kb.1 : Int) (getSourceLine kb.2)
              (getDestinationLine heap kb.2))) :=
  analyze_spec heap func errs hnd hlen

/-- C10 at `sampleFunc`: two records, and the two `br_` lines of the stream. -/
theorem analyze_traversal_witness :
    (analyze sampleHeap (BranchLogger.new, []) sampleFunc).1.branchDataList =
      [("/path/f.c", 1, 10, 12), ("/path/f.c", 2, -1, -1)] ∧
    (streamLines (String.join (analyze sampleHeap (BranchLogger.new, []) sampleFunc).2)).filter
        isBranchLine = ["br_1: /path/f.c, 10, 12", "br_2: /path/f.c, -1, -1"] :=
  ⟨(analyze_traversal sampleHeap sampleFunc [] (by decide) (by decide)).1.trans (by decide),
    by decide⟩

/-- C10 (as stated) fails when the file path holds a newline: the function from
`/tmp` and `a\nbr_7: x.c` has one record, and the stream has two lines
starting `br_`, neither of which carries the four values of the record. -/
theorem analyze_newline_in_path :
    (analyze sampleHeap (BranchLogger.new, []) brNameFunc).1.branchDataList =
      [("/tmp/a\nbr_7: x.c", 1, 10, 12)] ∧
    (streamLines (String.join (analyze sampleHeap (BranchLogger.new, []) brNameFunc).2)).filter
        isBranchLine = ["br_1: /tmp/a", "br_7: x.c, 10, 12"] := by
  decide

/-- C4: sentinel correctness. A branch without debug location has source line
`-1`; a branch whose first successor block is empty, or starts with an
instruction without debug location, has destination line `-1`; and for a
conditional branch `logBranch` appends one record, with the id from
`getBranchID` and these two lines, whatever their values. -/
theorem sentinel_correctness (heap : Heap) (lg : BranchLogger) (errs : List String)
    (b : BranchInst) (filePath : String) :
    (b.debugLoc = none → getSourceLine b = -1) ∧
    (((heap b.getSuccessor0).insts = [] ∨
        ∃ first rest, (heap b.getSuccessor0).insts = first :: rest ∧
          first.getDebugLoc = none) →
      getDestinationLine heap b = -1) ∧
    (b.isConditional = true →
      (logBranch heap lg errs b filePath).1.branchDataList =
        lg.branchDataList ++
          [(filePath, (getBranchID lg b).1, getSourceLine b, getDestinationLine heap b)]) := by
  refine ⟨?_, ?_, ?_⟩
  · intro h
    simp only [getSourceLine, h]
    decide
  · intro h
    have hs : b.getNumSuccessors > 0 := by
      unfold BranchInst.getNumSuccessors
      cases b.targets <;> simp
    simp only [getDestinationLine, hs, if_true]
    rcases h with h | ⟨first, rest, h, hd⟩
    · rw [h]
    · rw [h]
      simp only [hd]
  · intro h
    have hmapfind : (getBranchID lg b).2.branchDataList = lg.branchDataList := by
      unfold getBranchID
      by_cases hf : mapFind lg.branchMap b.addr = none
      · simp only [hf, if_true]
      · simp only [hf, if_false]
    simp [logBranch, isConditionalBranch, h, addBranchToList, hmapfind]

/-- C4 at the branch of block 2 of `sampleHeap`: no debug location, empty
first successor. -/
theorem sentinel_correctness_witness :
    (logBranch sampleHeap BranchLogger.new [] ⟨9, none, .cond 4 3 1⟩ "/path/f.c").1.branchDataList =
      [("/path/f.c", 1, -1, -1)] :=
  ((sentinel_correctness sampleHeap BranchLogger.new [] ⟨9, none, .cond 4 3 1⟩
    "/path/f.c").2.2 rfl).trans (by decide)

/-- C6: indirect-call exclusion. For an indirect call, `analyzeInstruction`
(through `logFunctionPointer`) leaves the logger as it is (no record, no id)
and writes exactly one line, `*IndirectFuncPtr_` followed by the target; for a
call that is not indirect it leaves the logger and the stream as they are. -/
theorem indirect_call_exclusion (heap : Heap) (lg : BranchLogger) (errs : List String)
    (c : CallInst) (filePath : String) :
    (c.isIndirectCall = true →
      ∃ target, c.calledOperand = some target ∧
        analyzeInstruction heap (lg, errs) (.call c) filePath =
          (lg, errs ++ ["*IndirectFuncPtr_" ++ ptrText target.addr ++ "\n"])) ∧
    (c.isIndirectCall = false →
      analyzeInstruction heap (lg, errs) (.call c) filePath = (lg, errs)) := by
  constructor
  · intro h
    cases ho : c.calledOperand with
    | none => simp [CallInst.isIndirectCall, ho] at h
    | some v =>
      exact ⟨v, rfl, by
        simp [analyzeInstruction, logFunctionPointer, isIndirectCall, h, ho, indirectText]⟩
  · intro h
    simp [analyzeInstruction, logFunctionPointer, isIndirectCall, h]

/-- C6 at the indirect call of block 0 of `sampleHeap`. -/
theorem indirect_call_exclusion_witness :
    analyzeInstruction sampleHeap (BranchLogger.new, []) (.call ⟨6, none, some ⟨77, .other⟩⟩)
        "/path/f.c" = (BranchLogger.new, ["*IndirectFuncPtr_0x4d\n"]) := by
  obtain ⟨t, ht, h⟩ := (indirect_call_exclusion sampleHeap BranchLogger.new []
    ⟨6, none, some ⟨77, .other⟩⟩ "/path/f.c").1 rfl
  cases ht
  exact h.trans (by decide)

theorem foldl_put_open (l : List BranchData) (w : String) :
    l.foldl (fun o d => OfStream.put o (csvLine d)) ⟨true, w⟩ =
      ⟨true, w ++ String.join (l.map csvLine)⟩ := by
  induction l generalizing w with
  | nil => simp [String.join]
  | cons d rest ih =>
    rw [List.foldl_cons]
    have : OfStream.put ⟨true, w⟩ (csvLine d) = ⟨true, w ++ csvLine d⟩ := by simp [OfStream.put]
    rw [this, ih, List.map_cons, join_cons, String.append_assoc]

theorem foldl_put_closed (l : List BranchData) (w : String) :
    l.foldl (fun o d => OfStream.put o (csvLine d)) ⟨false, w⟩ = ⟨false, w⟩ := by
  induction l with
  | nil => rfl
  | cons d rest ih =>
    rw [List.foldl_cons]
    have : OfStream.put ⟨false, w⟩ (csvLine d) = ⟨false, w⟩ := by simp [OfStream.put]
    rw [this, ih]


theorem put_open (w t : String) : OfStream.put ⟨true, w⟩ t = ⟨true, w ++ t⟩ := by
  simp [OfStream.put]

theorem access_of_canOpen (fs : FileSys) (hopen : fs.canOpen = true) : fs.access = .openable := by
  simpa [FileSys.canOpen] using hopen

theorem writeCsvFile_absent (lg : BranchLogger) (fs : FileSys) (errs : List String)
    (habsent : fs.csv = none) (hopen : fs.canOpen = true) :
    writeCsvFile lg fs errs =
      ⟨⟨some (csvHeader ++ String.join (lg.branchDataList.map csvLine)), .openable⟩,
        errs ++ [csvWrittenText], false⟩ := by
  obtain ⟨csv, access⟩ := fs
  have ha := access_of_canOpen _ hopen
  simp only at habsent ha
  subst habsent ha
  simp only [writeCsvFile, filesystemExists, OfStream.openAppend, FileSys.canOpen,
    Option.isSome_none, Bool.not_false, if_true, decide_True, put_open, foldl_put_open]
  simp [OfStream.close]

theorem writeCsvFile_present (lg : BranchLogger) (fs : FileSys) (errs : List String)
    (content : String) (hpresent : fs.csv = some content) (hopen : fs.canOpen = true) :
    writeCsvFile lg fs errs =
      ⟨⟨some (content ++ String.join (lg.branchDataList.map csvLine)), .openable⟩,
        errs ++ [csvWrittenText], false⟩ := by
  obtain ⟨csv, access⟩ := fs
  have ha := access_of_canOpen _ hopen
  simp only at hpresent ha
  subst hpresent ha
  simp only [writeCsvFile, filesystemExists, OfStream.openAppend, FileSys.canOpen,
    Option.isSome_some, Bool.not_true, Bool.false_eq_true, if_false, decide_True,
    foldl_put_open]
  simp [OfStream.close]

theorem writeCsvFile_closed (lg : BranchLogger) (fs : FileSys) (errs : List String)
    (hacc : fs.access = .unopenable) :
    writeCsvFile lg fs errs = ⟨fs, errs ++ [csvWrittenText], false⟩ := by
  obtain ⟨csv, access⟩ := fs
  simp only at hacc
  subst hacc
  have hput : ∀ t, OfStream.put ⟨false, ""⟩ t = ⟨false, ""⟩ := fun t => by simp [OfStream.put]
  cases csv <;>
    simp only [writeCsvFile, filesystemExists, OfStream.openAppend, FileSys.canOpen,
      Option.isSome_none, Option.isSome_some, Bool.not_false, Bool.not_true,
      Bool.false_eq_true, if_true, if_false, reduceCtorEq, decide_False, hput,
      foldl_put_closed] <;>
    simp [OfStream.close]

theorem writeCsvFile_thrown (lg : BranchLogger) (fs : FileSys) (errs : List String)
    (hacc : fs.access = .statFails) : writeCsvFile lg fs errs = ⟨fs, errs, true⟩ := by
  simp [writeCsvFile, filesystemExists, hacc]

theorem lineCount_append (s t : String) : lineCount (s ++ t) = lineCount s + lineCount t := by
  simp [lineCount, String.data_append, List.count_append]

theorem lineCount_join (l : List BranchData) (hnl : ∀ d ∈ l, '\n' ∉ d.1.data) :
    lineCount (String.join (l.map csvLine)) = l.length := by
  induction l with
  | nil => rfl
  | cons d rest ih =>
    have h1 : d.1.data.count '\n' = 0 := List.count_eq_zero.2 (hnl d (List.mem_cons_self _ _))
    rw [List.map_cons, join_cons, lineCount_append, lineCount_csvLine, h1,
      ih (fun e he => hnl e (List.mem_cons_of_mem _ he)), List.length_cons]
    omega


/-- C3 (as amended): header idempotence. When no file path of the records
holds a newline: a flush of `N` records to an absent, openable file leaves the
header line followed by the `N` data lines, `1 + N` lines in all; a later flush
of `M` records appends exactly the `M` data lines after the unchanged earlier
content, and the file then has `1 + N + M` lines. -/
theorem writeCsvFile_header_once (lg1 lg2 : BranchLogger) (errs1 errs2 : List String)
    (fs : FileSys) (habsent : fs.csv = none) (hopen : fs.canOpen = true)
    (hnl : ∀ d ∈ lg1.branchDataList ++ lg2.branchDataList, '\n' ∉ d.1.data) :
    (writeCsvFile lg1 fs errs1).fs.csv =
      some (csvHeader ++ String.join (lg1.branchDataList.map csvLine)) ∧
    lineCount csvHeader = 1 ∧
    lineCount (String.join (lg1.branchDataList.map csvLine)) = lg1.branchDataList.length ∧
    (writeCsvFile lg2 (writeCsvFile lg1 fs errs1).fs errs2).fs.csv =
      some (csvHeader ++ String.join (lg1.branchDataList.map csvLine) ++
        String.join (lg2.branchDataList.map csvLine)) ∧
    lineCount (String.join (lg2.branchDataList.map csvLine)) = lg2.branchDataList.length ∧
    lineCount (csvHeader ++ String.join (lg1.branchDataList.map csvLine) ++
        String.join (lg2.branchDataList.map csvLine)) =
      1 + lg1.branchDataList.length + lg2.branchDataList.length := by
  have h1 := writeCsvFile_absent lg1 fs errs1 habsent hopen
  have hc1 := lineCount_join lg1.branchDataList
    (fun d hd => hnl d (List.mem_append_left _ hd))
  have hc2 := lineCount_join lg2.branchDataList
    (fun d hd => hnl d (List.mem_append_right _ hd))
  have hh : lineCount csvHeader = 1 := by decide
  refine ⟨by rw [h1], hh, hc1, ?_, hc2, ?_⟩
  · rw [h1, writeCsvFile_present lg2
      ⟨some (csvHeader ++ String.join (lg1.branchDataList.map csvLine)), .openable⟩ errs2 _ rfl rfl]
  · rw [lineCount_append, lineCount_append, hh, hc1, hc2]

/-- C3 at two flushes of `sampleLogger`. -/
theorem writeCsvFile_header_once_witness :
    (writeCsvFile sampleLogger (writeCsvFile sampleLogger ⟨none, .openable⟩ []).fs []).fs.csv =
      some "file_path,branch_id,source_line,destination_line\n/path/f.c,1,10,12\n/path/f.c,1,10,12\n" :=
  (writeCsvFile_header_once sampleLogger sampleLogger [] [] ⟨none, .openable⟩ rfl rfl
    (by decide)).2.2.2.1.trans (by decide)

/-- C3 (as stated) fails when a file path holds a newline: one record is
flushed to an absent file, and the file has three lines, not two. -/
theorem writeCsvFile_newline_in_path :
    (analyze sampleHeap (BranchLogger.new, []) newlineFunc).1.branchDataList.length = 1 ∧
    (run sampleHeap newlineFunc ⟨none, .openable⟩ []).fs.csv =
      some "file_path,branch_id,source_line,destination_line\n/tmp/a\nb.c,1,10,12\n" ∧
    lineCount "file_path,branch_id,source_line,destination_line\n/tmp/a\nb.c,1,10,12\n" = 3 ∧
    lineCount "file_path,branch_id,source_line,destination_line\n/tmp/a\nb.c,1,10,12\n" ≠
      1 + 1 := by
  decide

/-- C5 (as amended): when the file cannot be opened, `writeCsvFile` (and the
destructor that calls it) skips the flush: the file state stays as it was,
nothing written. When the existence check itself fails, its exception leaves
`writeCsvFile`, nothing written to the diagnostic stream either; when the
check succeeds and only the open fails, `writeCsvFile` returns as it does
after a flush, with no exception and nothing returned. -/
theorem writeCsvFile_open_failure (lg : BranchLogger) (fs : FileSys) (errs : List String)
    (hfail : fs.canOpen = false) :
    (writeCsvFile lg fs errs).fs = fs ∧
    (lg.destroy fs errs).fs = fs ∧
    (fs.access = .statFails → writeCsvFile lg fs errs = ⟨fs, errs, true⟩) ∧
    (fs.access = .unopenable → (writeCsvFile lg fs errs).thrown = false) := by
  have hcases : fs.access = .unopenable ∨ fs.access = .statFails := by
    cases ha : fs.access with
    | openable => simp [FileSys.canOpen, ha] at hfail
    | unopenable => exact Or.inl rfl
    | statFails => exact Or.inr rfl
  have hfs : (writeCsvFile lg fs errs).fs = fs := by
    rcases hcases with ha | ha
    · rw [writeCsvFile_closed lg fs errs ha]
    · rw [writeCsvFile_thrown lg fs errs ha]
  refine ⟨hfs, hfs, fun ha => writeCsvFile_thrown lg fs errs ha, fun ha => ?_⟩
  rw [writeCsvFile_closed lg fs errs ha]

/-- C5 at `sampleLogger` and an absent file that cannot be opened. -/
theorem writeCsvFile_open_failure_witness :
    (writeCsvFile sampleLogger ⟨none, .unopenable⟩ []).fs = ⟨none, .unopenable⟩ ∧
    (writeCsvFile sampleLogger ⟨none, .unopenable⟩ []).thrown = false :=
  ⟨(writeCsvFile_open_failure sampleLogger ⟨none, .unopenable⟩ [] rfl).1,
    (writeCsvFile_open_failure sampleLogger ⟨none, .unopenable⟩ [] rfl).2.2.2 rfl⟩

/-- C5 (as stated) fails: with the file impossible to open (the existence
check succeeding), the flush of `sampleLogger` returns without an exception,
and the diagnostic stream says that the data has been written. -/
theorem writeCsvFile_reports_written_on_failure :
    writeCsvFile sampleLogger ⟨none, .unopenable⟩ [] =
      ⟨⟨none, .unopenable⟩, ["CSV data has been written to branch_data.csv\n"], false⟩ := by
  decide

theorem fieldCount_dataLine (d : BranchData) :
    fieldCount (dataLine d) = d.1.data.count ',' + 4 := by
  simp [fieldCount, dataLine, String.data_append, List.count_append, count_intText_comma]

theorem map_csvLine (l : List BranchData) :
    l.map csvLine = (l.map dataLine).map (fun b => b ++ "\n") := by
  rw [List.map_map]
  rfl

theorem streamLines_log (l : List BranchData) (hnl : ∀ d ∈ l, '\n' ∉ d.1.data) :
    streamLines (csvHeader ++ String.join (l.map csvLine)) =
      "file_path,branch_id,source_line,destination_line" :: l.map dataLine := by
  have hh : csvHeader = "file_path,branch_id,source_line,destination_line" ++ "\n" := rfl
  rw [hh, streamLines_line _ _ (by decide), map_csvLine, streamLines_join]
  intro b hb
  obtain ⟨d, hd, rfl⟩ := List.mem_map.1 hb
  exact dataLine_chars d (hnl d hd)

theorem streamLines_csvLine (d : BranchData) (hnl : '\n' ∉ d.1.data) :
    streamLines (csvLine d) = [dataLine d] := by
  have := streamLines_line (dataLine d) "" (dataLine_chars d hnl)
  simpa [csvLine_eq, streamLines, splitLines] using this

/-- C8 (as amended): header shape. What is written to an absent file is the
header and the texts of the records; the lines of the file are the fixed
header line, of exactly four comma-separated fields, and then the lines of
each record in order; and the text of a record whose file path holds neither
a comma nor a newline is one line, of as many fields as the header. -/
theorem csvHeader_four_fields (lg : BranchLogger) (errs : List String) :
    (writeCsvFile lg ⟨none, .openable⟩ errs).fs.csv =
      some ("file_path,branch_id,source_line,destination_line\n" ++
        String.join (lg.branchDataList.map csvLine)) ∧
    streamLines ("file_path,branch_id,source_line,destination_line\n" ++
        String.join (lg.branchDataList.map csvLine)) =
      "file_path,branch_id,source_line,destination_line" ::
        lg.branchDataList.flatMap (fun d => streamLines (csvLine d)) ∧
    fieldCount "file_path,branch_id,source_line,destination_line" = 4 ∧
    ∀ d : BranchData, ',' ∉ d.1.data → '\n' ∉ d.1.data →
      streamLines (csvLine d) =
        [d.1 ++ "," ++ intText d.2.1 ++ "," ++ intText d.2.2.1 ++ "," ++ intText d.2.2.2] ∧
      fieldCount (d.1 ++ "," ++ intText d.2.1 ++ "," ++ intText d.2.2.1 ++ "," ++
          intText d.2.2.2) =
        fieldCount "file_path,branch_id,source_line,destination_line" := by
  refine ⟨by rw [writeCsvFile_absent lg ⟨none, .openable⟩ errs rfl rfl]; rfl, ?_, by decide, ?_⟩
  · have h := streamLines_append "file_path,branch_id,source_line,destination_line"
      (String.join (lg.branchDataList.map csvLine))
    rw [streamLines_join_csvLine] at h
    exact h
  · intro d hc hnl
    refine ⟨streamLines_csvLine d hnl, ?_⟩
    have h := fieldCount_dataLine d
    rw [List.count_eq_zero.2 hc] at h
    exact h.trans (by decide)

/-- C8 at `sampleLogger`: the lines of its file, and the four fields of its
record. -/
theorem csvHeader_four_fields_witness :
    (streamLines "file_path,branch_id,source_line,destination_line\n/path/f.c,1,10,12\n").map
        fieldCount = [4, 4] ∧
    streamLines (csvLine ("/path/f.c", 1, 10, 12)) = ["/path/f.c,1,10,12"] :=
  ⟨by decide,
    (((csvHeader_four_fields sampleLogger []).2.2.2 ("/path/f.c", 1, 10, 12) (by decide)
      (by decide)).1).trans (by decide)⟩

/-- C8 (as stated) fails: the header written to an absent file has four
fields, not five; the data line of a record whose path holds a comma has five
fields, one more than the header; and a record whose path holds a newline
gives two lines, of one field and of four. -/
theorem csvHeader_not_five_fields :
    (run sampleHeap commaFunc ⟨none, .openable⟩ []).fs.csv =
      some "file_path,branch_id,source_line,destination_line\n/tmp/a,b/f.c,1,10,12\n" ∧
    fieldCount "file_path,branch_id,source_line,destination_line" ≠ 5 ∧
    (streamLines "file_path,branch_id,source_line,destination_line\n/tmp/a,b/f.c,1,10,12\n").map
        fieldCount = [4, 5] ∧
    (run sampleHeap newlineFunc ⟨none, .openable⟩ []).fs.csv =
      some "file_path,branch_id,source_line,destination_line\n/tmp/a\nb.c,1,10,12\n" ∧
    (streamLines "file_path,branch_id,source_line,destination_line\n/tmp/a\nb.c,1,10,12\n").map
        fieldCount = [4, 1, 4] := by
  decide

/-- C7 (as amended): serialisation format, end to end. Analysing once, with the
log absent and openable, a function from `/path/f.c` whose only conditional
branch is at line 10 and whose first successor starts at line 12 leaves
exactly the header and the line `/path/f.c,1,10,12` in the log, and the only
line of the diagnostic stream starting `br_` is `br_1: /path/f.c, 10, 12`. In
general a flush that can open the file writes, after the header or the
earlier content, each record as its path, id, source line and destination
line, comma-separated and newline-terminated, the integers in decimal, `-1` as
`-1`; and this text is a single line when the path holds no newline. -/
theorem serialisation_end_to_end (heap : Heap) (func : Function) (errs : List String)
    (b : BranchInst) (first : Instruction) (rest : List Instruction) (d1 d2 : DILocation)
    (hp : getSourceFilePath func = "/path/f.c")
    (hcb : condBranches heap func = [b])
    (hsrc : b.debugLoc = some d1) (h10 : d1.getLine = 10)
    (hdst : (heap b.getSuccessor0).insts = first :: rest)
    (hfirst : first.getDebugLoc = some d2) (h12 : d2.getLine = 12) :
    (run heap func ⟨none, .openable⟩ errs).fs.csv =
      some "file_path,branch_id,source_line,destination_line\n/path/f.c,1,10,12\n" ∧
    (∃ bodies : List String, (run heap func ⟨none, .openable⟩ errs).errs =
        errs ++ bodies.map (fun l => l ++ "\n") ++
          ["CSV data has been written to branch_data.csv\n"] ∧
      (streamLines (String.join (bodies.map (fun l => l ++ "\n")))).filter isBranchLine =
        ["br_1: /path/f.c, 10, 12"]) ∧
    (∀ (lg : BranchLogger) (fs : FileSys) (errs1 : List String), fs.canOpen = true →
      (writeCsvFile lg fs errs1).fs.csv =
        some ((match fs.csv with
            | none => "file_path,branch_id,source_line,destination_line\n"
            | some content => content) ++
          String.join (lg.branchDataList.map (fun d =>
            d.1 ++ "," ++ intText d.2.1 ++ "," ++ intText d.2.2.1 ++ "," ++
              intText d.2.2.2 ++ "\n")))) ∧
    (∀ d : BranchData, '\n' ∉ d.1.data →
      streamLines (d.1 ++ "," ++ intText d.2.1 ++ "," ++ intText d.2.2.1 ++ "," ++
          intText d.2.2.2 ++ "\n") =
        [d.1 ++ "," ++ intText d.2.1 ++ "," ++ intText d.2.2.1 ++ "," ++ intText d.2.2.2]) ∧
    (∀ (lg : BranchLogger) (errs1 : List String),
      (∀ d ∈ lg.branchDataList, '\n' ∉ d.1.data) →
      ∃ content, (writeCsvFile lg ⟨none, .openable⟩ errs1).fs.csv = some content ∧
        streamLines content =
          "file_path,branch_id,source_line,destination_line" ::
            lg.branchDataList.map (fun d =>
              d.1 ++ "," ++ intText d.2.1 ++ "," ++ intText d.2.2.1 ++ "," ++
                intText d.2.2.2)) ∧
    intText (-1) = "-1" ∧
    (∀ n : Nat, intText (n : Int) = String.mk (Nat.toDigits 10 n)) := by
  have hs : getSourceLine b = 10 := by
    simp only [getSourceLine, hsrc, h10]
    decide
  have hd : getDestinationLine heap b = 12 := by
    have hn : b.getNumSuccessors > 0 := by
      unfold BranchInst.getNumSuccessors
      cases b.targets <;> simp
    simp only [getDestinationLine, hn, if_true, hdst, hfirst, h12]
    decide
  obtain ⟨h1, bodies, h2, -, h3⟩ := analyze_spec heap func errs (by rw [hcb]; simp)
    (by rw [hcb]; simp)
  rw [hcb, hp] at h1 h3
  simp only [List.enumFrom_cons, List.enumFrom_nil, List.map_cons, List.map_nil, hs, hd]
    at h1 h3
  refine ⟨?_, ⟨bodies, ?_, ?_⟩, ?_, ?_, ?_, by decide, fun n => rfl⟩
  · simp only [run, BranchLogger.destroy]
    rw [writeCsvFile_absent _ ⟨none, .openable⟩ _ rfl rfl, h1]
    dsimp only
    decide
  · simp only [run, BranchLogger.destroy]
    rw [writeCsvFile_absent _ ⟨none, .openable⟩ _ rfl rfl, h2]
    rfl
  · rw [h3 (by decide)]
    decide
  · intro lg fs errs1 hopen
    cases hc : fs.csv with
    | none => rw [writeCsvFile_absent lg fs errs1 hc hopen]; rfl
    | some content => rw [writeCsvFile_present lg fs errs1 content hc hopen]; rfl
  · intro d hnl
    exact streamLines_csvLine d hnl
  · intro lg errs1 hnl
    refine ⟨_, by rw [writeCsvFile_absent lg ⟨none, .openable⟩ errs1 rfl rfl], ?_⟩
    exact streamLines_log lg.branchDataList hnl

/-- C7 at `oneIfFunc`. -/
theorem serialisation_end_to_end_witness :
    (run sampleHeap oneIfFunc ⟨none, .openable⟩ []).fs.csv =
      some "file_path,branch_id,source_line,destination_line\n/path/f.c,1,10,12\n" :=
  (serialisation_end_to_end sampleHeap oneIfFunc [] ⟨7, some ⟨10⟩, .cond 3 1 2⟩
    (.other 100 (some ⟨12⟩)) [.br ⟨8, none, .uncond 2⟩] ⟨10⟩ ⟨12⟩ (by decide) (by decide) rfl
    (by decide) (by decide) rfl (by decide)).1

/-- C7 (as stated) fails in its general part when a file path holds a newline:
the record of the function from `/tmp` and `a\nb.c` is written as a text of
two lines, not as a single line. -/
theorem serialisation_newline_in_path :
    (analyze sampleHeap (BranchLogger.new, []) newlineFunc).1.branchDataList =
      [("/tmp/a\nb.c", 1, 10, 12)] ∧
    csvLine ("/tmp/a\nb.c", 1, 10, 12) = "/tmp/a\nb.c,1,10,12\n" ∧
    streamLines (csvLine ("/tmp/a\nb.c", 1, 10, 12)) = ["/tmp/a", "b.c,1,10,12"] := by
  decide

end BranchPass

namespace BrMain

/-! ## Properties of the instrumentation tool -/

theorem foldl_instrumentSlot (slots : List (Option IRStmt)) (out : IRSB) :
    slots.foldl instrumentSlot out =
      { out with stmts := out.stmts ++ (heldStmts slots).flatMap emitted } := by
  induction slots generalizing out with
  | nil => simp [heldStmts]
  | cons s rest ih =>
    rw [List.foldl_cons, ih]
    cases s with
    | none => simp [instrumentSlot, heldStmts]
    | some st =>
      by_cases h : st.tag = .Ist_IMark
      · simp [instrumentSlot, heldStmts, emitted, addStmtToIRSB, h]
      · simp [instrumentSlot, heldStmts, emitted, addStmtToIRSB, h]

theorem br_instrument_stmts (bb : IRSB) :
    (br_instrument bb).stmts = (heldStmts bb.stmts).flatMap emitted := by
  simp [br_instrument, foldl_instrumentSlot, deepCopyIRSBExceptStmts]

theorem countIMark_eq (bb : IRSB) : countIMark bb = countMarks (heldStmts bb.stmts) := by
  unfold countIMark countMarks heldStmts
  induction bb.stmts with
  | nil => rfl
  | cons s rest ih =>
    cases s with
    | none => simpa [List.filter_cons] using ih
    | some st =>
      by_cases h : st.tag = .Ist_IMark
      · simpa [List.filter_cons, h] using ih
      · simpa [List.filter_cons, h] using ih

theorem execStmt_of_not_callsProbe (t : Nat) (st : IRStmt) (h : callsProbe st = false) :
    execStmt t st = t := by
  unfold execStmt
  unfold callsProbe at h
  cases hd : st.details with
  | none => rfl
  | some d =>
    simp only [hd, decide_eq_false_iff_not] at h
    simp [h]

theorem execStmt_probeStmt (t : Nat) : execStmt t probeStmt = inc_instruction_count t := by
  simp [execStmt, probeStmt, IRStmt_Dirty, unsafeIRDirty_0_N]

theorem exec_emitted (l : List IRStmt) (hl : ∀ st ∈ l, callsProbe st = false) (t : Nat)
    (ht : t < 2 ^ 64) :
    (l.flatMap emitted).foldl (fun t slot => match slot with
      | some st => execStmt t st
      | none => t) t = (t + countMarks l) % 2 ^ 64 := by
  induction l generalizing t with
  | nil =>
    show t = (t + 0) % 2 ^ 64
    rw [Nat.add_zero, Nat.mod_eq_of_lt ht]
  | cons st rest ih =>
    have hst : callsProbe st = false := hl st (List.mem_cons_self _ _)
    have hrest : ∀ s ∈ rest, callsProbe s = false := fun s hs => hl s (List.mem_cons_of_mem _ hs)
    by_cases h : st.tag = .Ist_IMark
    · have hlt : inc_instruction_count t < 2 ^ 64 := Nat.mod_lt _ (by norm_num)
      simp only [List.flatMap_cons, emitted, h, if_true, List.cons_append, List.nil_append,
        List.foldl_cons, execStmt_of_not_callsProbe t st hst, execStmt_probeStmt]
      rw [ih hrest _ hlt]
      simp only [countMarks, List.filter_cons, h, decide_True, if_true, List.length_cons,
        inc_instruction_count]
      omega
    · simp only [List.flatMap_cons, emitted, h, if_false, List.cons_append, List.nil_append,
        List.foldl_cons, execStmt_of_not_callsProbe t st hst]
      rw [ih hrest _ ht]
      simp [countMarks, List.filter_cons, h]

theorem execBlock_br_instrument (bb : IRSB) (hb : probeFree bb) (t : Nat) (ht : t < 2 ^ 64) :
    execBlock t (br_instrument bb) = (t + countIMark bb) % 2 ^ 64 := by
  unfold execBlock
  rw [br_instrument_stmts, countIMark_eq]
  exact exec_emitted _ hb t ht

theorem execTimes_br_instrument (bb : IRSB) (hb : probeFree bb) (r : Nat) (t : Nat)
    (ht : t < 2 ^ 64) :
    execTimes (br_instrument bb) r t = (t + r * countIMark bb) % 2 ^ 64 := by
  induction r generalizing t with
  | zero =>
    show t = (t + 0 * countIMark bb) % 2 ^ 64
    rw [Nat.zero_mul, Nat.add_zero, Nat.mod_eq_of_lt ht]
  | succ r ih =>
    have hlt : (t + countIMark bb) % 2 ^ 64 < 2 ^ 64 := Nat.mod_lt _ (by norm_num)
    rw [execTimes, execBlock_br_instrument bb hb t ht, ih _ hlt, Nat.succ_mul]
    omega

theorem execRun_eq (blocks : List (IRSB × Nat)) (hb : ∀ br ∈ blocks, probeFree br.1) (t : Nat)
    (ht : t < 2 ^ 64) :
    execRun t blocks = (t + expectedCount blocks) % 2 ^ 64 := by
  induction blocks generalizing t with
  | nil =>
    show t = (t + 0) % 2 ^ 64
    rw [Nat.add_zero, Nat.mod_eq_of_lt ht]
  | cons br rest ih =>
    have h1 : probeFree br.1 := hb br (List.mem_cons_self _ _)
    have h2 : ∀ b ∈ rest, probeFree b.1 := fun b hbm => hb b (List.mem_cons_of_mem _ hbm)
    have hlt : (t + br.2 * countIMark br.1) % 2 ^ 64 < 2 ^ 64 := Nat.mod_lt _ (by norm_num)
    have := ih h2 _ hlt
    unfold execRun at this ⊢
    rw [List.foldl_cons, execTimes_br_instrument _ h1 _ _ ht, this]
    simp only [expectedCount, List.map_cons, List.sum_cons]
    omega

/-- C9: counter fidelity. Running `r` times the instrumented form of a block
with `n` instruction markers moves `total_instructions` from `t` to
`(t + r * n) mod 2 ^ 64`; and from the initial value `0`, after any run the
message of `br_fini` shows the sum over the run of (executions × markers of
the block), modulo `2 ^ 64`. The input blocks are those the host hands over:
none holds a call to the tool's own static `inc_instruction_count`. -/
theorem counter_fidelity (blocks : List (IRSB × Nat)) (hb : ∀ br ∈ blocks, probeFree br.1)
    (exitcode : Int) :
    (∀ br ∈ blocks, ∀ t, t < 2 ^ 64 →
      execTimes (br_instrument br.1) br.2 t = (t + br.2 * countIMark br.1) % 2 ^ 64) ∧
    execRun total_instructions_init blocks = expectedCount blocks % 2 ^ 64 ∧
    br_fini (execRun total_instructions_init blocks) exitcode =
      "Total number of executed instructions: " ++
        Nat.repr (expectedCount blocks % 2 ^ 64) ++ "\n" := by
  have hrun : execRun total_instructions_init blocks = expectedCount blocks % 2 ^ 64 := by
    rw [execRun_eq blocks hb _ (by norm_num [total_instructions_init])]
    simp [total_instructions_init]
  refine ⟨fun br hbr t ht => execTimes_br_instrument _ (hb br hbr) _ _ ht, hrun, ?_⟩
  rw [hrun, br_fini]

theorem sampleRun_probeFree : ∀ br ∈ sampleRun, probeFree br.1 := by
  intro br hbr
  simp only [sampleRun, List.mem_cons, List.mem_singleton, List.not_mem_nil, or_false] at hbr
  rcases hbr with rfl | rfl <;> (unfold probeFree; decide)

theorem counter_fidelity_witness :
    execRun total_instructions_init sampleRun = 8 ∧
    br_fini (execRun total_instructions_init sampleRun) 0 =
      "Total number of executed instructions: 8\n" :=
  ⟨by decide, (counter_fidelity sampleRun sampleRun_probeFree 0).2.2.trans (by decide)⟩

end BrMain
